import Mathlib

/-!
Shallow embedding of `invokeai/app/invocations/cogview4_denoise.py`
(class `CogView4DenoiseInvocation`).

Modelling conventions:
  * Floating-point scalars are modelled as exact rationals (`ℚ`); the real-valued
    scheduler shift formulas (square root, exponential) are modelled over `ℝ`.
  * A latent tensor is modelled elementwise: the batch axis is explicit (a
    `List ℚ` is the batch of scalar latent elements, batch size 1 in the source),
    and all tensor arithmetic in the source is elementwise or scalar-broadcast.
  * The transformer model is an abstract function from (timestep, batched
    latents) to a batched prediction; the text-embedding arguments are fixed for
    a whole run and therefore folded into the abstract function.
  * Fallible code (`raise ValueError`, `assert`) returns `Except`/`Option`.
-/

namespace CogView4

/-- Truncation of a rational toward zero, as performed by `Tensor.to(torch.int64)`
and by Python `int()` on a float. -/
def ratTrunc (q : ℚ) : ℤ :=
  if 0 ≤ q then ⌊q⌋ else ⌈q⌉

/-- `torch.linspace(a, b, n)`: `n` evenly spaced values from `a` to `b` inclusive
(idealized to exact rational arithmetic). -/
def linspaceQ (a b : ℚ) (n : ℕ) : List ℚ :=
  if n = 0 then []
  else if n = 1 then [a]
  else (List.range n).map (fun i : ℕ => a + (i : ℚ) * (b - a) / ((n : ℚ) - 1))

/-- Modelled from the spec: `clip_timestep_schedule_fractional`
(`invokeai.backend.flux.sampling_utils`, imported by the source but not under
`src/`) clips the timestep schedule to the partial-denoising range selected by
the `denoising_start` / `denoising_end` fractions (spec section 6: "optional
existing latents + partial-denoising start/end fractions"): only timesteps whose
noise fraction lies between `1 - denoising_end` and `1 - denoising_start` are
kept. -/
def clip_timestep_schedule_fractional (timesteps : List ℚ)
    (denoising_start denoising_end : ℚ) : List ℚ :=
  let t_start := 1 - denoising_start
  let t_end := 1 - denoising_end
  timesteps.filter (fun t => decide (t_end ≤ t ∧ t ≤ t_start))

/-- The timestep schedule actually consumed by the denoising loop in
`_run_diffusion`: `torch.linspace(1, 0, self.steps + 1).tolist()` clipped by
`clip_timestep_schedule_fractional`. In the source this assignment *overwrites*
the `timesteps` variable previously returned by `_prepare_timesteps` (the
overwrite sits right after the `# Resume here...` comment). -/
def consumed_timesteps (steps : ℕ) (denoising_start denoising_end : ℚ) : List ℚ :=
  clip_timestep_schedule_fractional (linspaceQ 1 0 (steps + 1))
    denoising_start denoising_end

/-- Configuration of the flow-matching scheduler (`_init_scheduler`); only the
fields read by `_prepare_timesteps` are retained. -/
structure SchedulerConfig where
  num_train_timesteps : ℕ
  base_shift : ℝ
  max_shift : ℝ
  base_image_seq_len : ℕ

/-- `_init_scheduler`: the `FlowMatchEulerDiscreteScheduler` configuration used
by the invocation (CogView4-6B defaults). -/
noncomputable def _init_scheduler : SchedulerConfig :=
  { num_train_timesteps := 1000
    base_shift := 1/4
    max_shift := 3/4
    base_image_seq_len := 256 }

/-- `_calculate_timestep_shift`: `mu = (image_seq_len / base_seq_len) ** 0.5 *
max_shift + base_shift`. -/
noncomputable def _calculate_timestep_shift (image_seq_len base_seq_len : ℕ)
    (base_shift max_shift : ℝ) : ℝ :=
  Real.sqrt ((image_seq_len : ℝ) / (base_seq_len : ℝ)) * max_shift + base_shift

/-- Modelled from the spec: the scheduler's nonlinear dynamic-shift remap
(`FlowMatchEulerDiscreteScheduler.time_shift` with `time_shift_type="linear"`,
external `diffusers` code, not under `src/`): spec sections 4.1 and 9 describe
it as the flow-matching-with-dynamic-shift formula
`exp(mu) / (exp(mu) + (1/sigma - 1))`. -/
noncomputable def time_shift (mu sigma : ℝ) : ℝ :=
  Real.exp mu / (Real.exp mu + (1 / sigma - 1))

/-- Modelled from the spec: `FlowMatchEulerDiscreteScheduler.set_timesteps`
(external `diffusers` code, not under `src/`) with `use_dynamic_shifting=True`
applies the dynamic-shift remap to the provided sigmas and resolves the
timestep list as the shifted sigmas scaled back by `num_train_timesteps`
(spec section 4.1 step 4: "read back the scheduler's resolved timestep list"). -/
noncomputable def set_timesteps (sigmas : List ℚ) (mu : ℝ)
    (num_train_timesteps : ℕ) : List ℝ :=
  sigmas.map (fun s : ℚ => time_shift mu (s : ℝ) * (num_train_timesteps : ℝ))

/-- `_prepare_timesteps` (the Schedule Builder): base linear timesteps from
`num_train_timesteps` down to 1, cast to int64 and back to float, normalized to
sigmas, shifted by `mu`, and read back from the scheduler. -/
noncomputable def _prepare_timesteps (num_steps image_seq_len : ℕ) : List ℝ :=
  let cfg := _init_scheduler
  let ts : List ℤ :=
    (linspaceQ (cfg.num_train_timesteps : ℚ) 1 num_steps).map ratTrunc
  let sigmas : List ℚ := ts.map (fun t : ℤ => (t : ℚ) / (cfg.num_train_timesteps : ℚ))
  let mu := _calculate_timestep_shift image_seq_len cfg.base_image_seq_len
    cfg.base_shift cfg.max_shift
  set_timesteps sigmas mu cfg.num_train_timesteps

/-- `_prepare_cfg_scale`: broadcast a scalar guidance scale to all timesteps, or
validate the length of a user-provided per-step list (`assert len(self.cfg_scale)
== num_timesteps`, a fatal error modelled as `none`). -/
def _prepare_cfg_scale (cfg_scale : ℚ ⊕ List ℚ) (num_timesteps : ℕ) :
    Option (List ℚ) :=
  match cfg_scale with
  | Sum.inl s => some (List.replicate num_timesteps s)
  | Sum.inr l => if l.length = num_timesteps then some l else none

/-- Torch devices as an abstract enumeration. -/
inductive RDevice
  | cpu
  | cuda
  | mps
deriving DecidableEq

/-- Torch dtypes as an abstract enumeration. -/
inductive RDtype
  | float16
  | float32
  | bfloat16
deriving DecidableEq

/-- The fixed reference device on which noise is generated (`rand_device = "cpu"`
in `_get_noise`). -/
def rand_device : RDevice := RDevice.cpu

/-- The fixed reference dtype in which noise is generated
(`rand_dtype = torch.float16` in `_get_noise`). -/
def rand_dtype : RDtype := RDtype.float16

/-- Modelled from the spec: `LATENT_SCALE_FACTOR`
(`invokeai.app.invocations.constants`, not under `src/`), the spatial downscale
factor between pixel space and latent space. No claim below depends on its
numeric value. -/
def LATENT_SCALE_FACTOR : ℕ := 8

/-- `_get_noise`: noise is always drawn on the fixed reference device/dtype with
a generator seeded by `seed`, and only then cast to the requested target
device/dtype. `randn` abstracts `torch.randn` as a deterministic function of
(device, dtype, shape, seed); `cast` abstracts `Tensor.to(device, dtype)`. -/
def _get_noise
    (randn : RDevice → RDtype → ℕ × ℕ × ℕ × ℕ → ℤ → List ℚ)
    (cast : RDevice → RDtype → List ℚ → List ℚ)
    (batch_size num_channels_latents height width : ℕ)
    (dtype : RDtype) (device : RDevice) (seed : ℤ) : List ℚ :=
  cast device dtype
    (randn rand_device rand_dtype
      (batch_size, num_channels_latents,
        height / LATENT_SCALE_FACTOR, width / LATENT_SCALE_FACTOR) seed)

/-- `do_classifier_free_guidance = True`, hardcoded in `_run_diffusion`
(the source carries a `TODO(ryand): Make CFG optional.`). -/
def do_classifier_free_guidance : Bool := true

/-- `latent_model_input = torch.cat([latents] * 2) if do_classifier_free_guidance
else latents`: the batch is doubled whenever CFG is enabled. -/
def latent_model_input (latents : List ℚ) : List ℚ :=
  if do_classifier_free_guidance then latents ++ latents else latents

/-- `prompt_embeds = torch.cat([neg_prompt_embeds, pos_prompt_embeds], dim=0)`:
negative and positive conditioning concatenated for single-pass CFG. -/
def prompt_embeds (neg_prompt_embeds pos_prompt_embeds : List ℚ) : List ℚ :=
  neg_prompt_embeds ++ pos_prompt_embeds

/-- The CFG combination: `noise_pred.chunk(2)` splits the batched prediction into
unconditional and conditional halves, combined as
`noise_pred_uncond + cfg_scale * (noise_pred_cond - noise_pred_uncond)`. -/
def applyCFG (scale : ℚ) (noise_pred : List ℚ) : List ℚ :=
  let noise_pred_uncond := noise_pred.take (noise_pred.length / 2)
  let noise_pred_cond := noise_pred.drop (noise_pred.length / 2)
  List.zipWith (fun u c => u + scale * (c - u)) noise_pred_uncond noise_pred_cond

/-- State of the inpaint extension (`InpaintExtension(init_latents, inpaint_mask,
noise)`). -/
structure InpaintExt where
  init_latents : List ℚ
  inpaint_mask : List ℚ
  noise : List ℚ
deriving DecidableEq

/-- Modelled from the spec: `InpaintExtension.merge_intermediate_latents_with_init_latents`
(`invokeai.backend.sd3.extensions.inpaint_extension`, not under `src/`). Spec
section 4.4: re-noise the initial latents at timestep `t` (linear interpolation
between clean initial latents and noise weighted by the timestep fraction), then
composite by the continuous mask weights — the preserved (mask-weight) region is
overwritten with the re-noised initial latents, the to-be-generated region keeps
the model output. -/
def merge_intermediate_latents_with_init_latents (e : InpaintExt)
    (latents : List ℚ) (t : ℚ) : List ℚ :=
  let noised_init := List.zipWith (fun n i => t * n + (1 - t) * i)
    e.noise e.init_latents
  List.zipWith (fun m p => (1 - m) * p.1 + m * p.2)
    e.inpaint_mask (latents.zip noised_init)

/-- One progress snapshot (`PipelineIntermediateState`): step index, order,
total step count, integer timestep, and the current latents. -/
structure Snapshot where
  step : ℕ
  order : ℕ
  total_steps : ℕ
  timestep : ℤ
  latents : List ℚ
deriving DecidableEq

/-- The initial latent image: blended toward the provided initial latents at the
first timestep (`latents = t_0 * noise + (1.0 - t_0) * init_latents`) when doing
image-to-image, otherwise the seeded noise itself. -/
def initial_latents (t_0 : ℚ) (noise : List ℚ) (init : Option (List ℚ)) :
    List ℚ :=
  match init with
  | some init_latents =>
      List.zipWith (fun n i => t_0 * n + (1 - t_0) * i) noise init_latents
  | none => noise

/-- One iteration of the denoising loop body for the pair `(t_curr, t_prev)`:
expand the batch for CFG, scale the timestep by 1000, invoke the transformer,
apply CFG, take the Euler step `latents + (t_prev - t_curr) * noise_pred`
(the float32 round-trip of the source is exact here), and apply the inpaint
blend when active. -/
def denoiseStep (M : ℚ → List ℚ → List ℚ) (scale t_curr t_prev : ℚ)
    (ext : Option InpaintExt) (latents : List ℚ) : List ℚ :=
  let input := latent_model_input latents
  let timestep := t_curr * 1000
  let pred0 := M timestep input
  let noise_pred := if do_classifier_free_guidance then applyCFG scale pred0
    else pred0
  let latents1 := List.zipWith (fun l p => l + (t_prev - t_curr) * p)
    latents noise_pred
  match ext with
  | some e => merge_intermediate_latents_with_init_latents e latents1 t_prev
  | none => latents1

/-- The denoising loop over `enumerate(zip(timesteps[:-1], timesteps[1:]))`,
returning the final latents together with the per-step progress snapshots
(step index `step_idx + 1`, timestep `int(t_curr)`, post-step latents).
`cfg_scale.getD step_idx 0` models the Python list index `cfg_scale[step_idx]`
(always in range in any run that passes `_prepare_cfg_scale`). -/
def denoiseLoop (M : ℚ → List ℚ → List ℚ) (ext : Option InpaintExt)
    (cfg_scale : List ℚ) (total_steps : ℕ) :
    List (ℕ × ℚ × ℚ) → List ℚ → List ℚ × List Snapshot
  | [], latents => (latents, [])
  | p :: rest, latents =>
      let latents1 := denoiseStep M (cfg_scale.getD p.1 0) p.2.1 p.2.2 ext latents
      let r := denoiseLoop M ext cfg_scale total_steps rest latents1
      (r.1, ⟨p.1 + 1, 1, total_steps, ratTrunc p.2.1, latents1⟩ :: r.2)

/-- The portion of `_run_diffusion` from the initial progress snapshot onward:
emit the step-0 snapshot (`step=0`, `timestep=int(timesteps[0])`, initial
latents), then run the denoising loop over consecutive timestep pairs. -/
def enterLoop (M : ℚ → List ℚ → List ℚ) (cfg_scale : List ℚ)
    (total_steps : ℕ) (timesteps latents : List ℚ) (ext : Option InpaintExt) :
    List ℚ × List Snapshot :=
  let snap0 : Snapshot :=
    ⟨0, 1, total_steps, ratTrunc (timesteps.headD 0), latents⟩
  let pairs := (timesteps.dropLast.zip timesteps.tail).enum
  let r := denoiseLoop M ext cfg_scale total_steps pairs latents
  (r.1, snap0 :: r.2)

/-- `_run_diffusion` (numeric core, conditioning load and device plumbing
abstracted into `M` and `noise`): build the consumed timestep schedule (see
`consumed_timesteps` — the source computes `_prepare_timesteps` here and then
overwrites the result with this independent linear schedule), resolve the
guidance scales, blend or validate the initial latents
(`raise ValueError("denoising_start should be 0 when initial latents are not
provided.")` when `denoising_start > 1e-5` without init latents), short-circuit
when at most one timestep remains, otherwise prepare the inpaint extension
(`assert init_latents is not None`) and run the loop. -/
def _run_diffusion (M : ℚ → List ℚ → List ℚ) (steps : ℕ)
    (denoising_start denoising_end : ℚ) (cfg_scale_input : ℚ ⊕ List ℚ)
    (init mask : Option (List ℚ)) (noise : List ℚ) :
    Except String (List ℚ × List Snapshot) :=
  let timesteps := consumed_timesteps steps denoising_start denoising_end
  let total_steps := timesteps.length - 1
  match _prepare_cfg_scale cfg_scale_input total_steps with
  | none => Except.error "assert len(cfg_scale) == num_timesteps"
  | some cfg_scale =>
    if init = none ∧ 1/100000 < denoising_start then
      Except.error "denoising_start should be 0 when initial latents are not provided."
    else
      let t_0 := timesteps.headD 0
      let latents := initial_latents t_0 noise init
      if timesteps.length ≤ 1 then Except.ok (latents, [])
      else
        match mask, init with
        | some _, none => Except.error "assert init_latents is not None"
        | some m, some il =>
            Except.ok (enterLoop M cfg_scale total_steps timesteps latents
              (some ⟨il, m, noise⟩))
        | none, _ =>
            Except.ok (enterLoop M cfg_scale total_steps timesteps latents none)

/-- A stub transformer returning the zero prediction for every input, used as the
concrete model in witnesses (spec section 8 uses the same device). -/
def stubModel : ℚ → List ℚ → List ℚ :=
  fun _ l => l.map (fun _ => 0)

/-! Helper lemmas about the embedded definitions. -/

theorem linspaceQ_length (a b : ℚ) (n : ℕ) : (linspaceQ a b n).length = n := by
  unfold linspaceQ
  split
  · simp [*]
  · split
    · simp [*]
    · simp

theorem chain_map_of_mem {α β : Type} {P : α → Prop} (f : α → β)
    (R : α → α → Prop) (S : β → β → Prop)
    (hf : ∀ a b, P a → P b → R a b → S (f a) (f b)) :
    ∀ l : List α, List.Chain' R l → (∀ a ∈ l, P a) → List.Chain' S (l.map f)
  | [], _, _ => by simp
  | [_], _, _ => by simp
  | a :: b :: t, hc, hm => by
    have hc' := List.chain'_cons.1 hc
    have htail := chain_map_of_mem f R S hf (b :: t) hc'.2
      (fun x hx => hm x (List.mem_cons_of_mem a hx))
    rw [List.map_cons] at htail ⊢
    rw [List.map_cons]
    exact List.chain'_cons.2
      ⟨hf a b (hm a (by simp)) (hm b (by simp)) hc'.1, htail⟩

theorem linspaceQ_chain (a b : ℚ) (n : ℕ) (hab : b ≤ a) :
    List.Chain' (fun x y => y ≤ x) (linspaceQ a b n) := by
  unfold linspaceQ
  split
  · simp
  · split
    · simp
    · rename_i h0 h1
      have hn : 2 ≤ n := by omega
      have hd : (0:ℚ) < (n:ℚ) - 1 := by
        have h2 : (2:ℚ) ≤ (n:ℚ) := by exact_mod_cast hn
        linarith
      rw [List.chain'_map]
      obtain ⟨m, rfl⟩ : ∃ m, n = m + 1 := ⟨n - 1, by omega⟩
      refine (List.chain'_range_succ _ m).2 (fun i hi => ?_)
      refine add_le_add_left ?_ a
      rw [div_le_div_iff_of_pos_right hd]
      push_cast
      nlinarith [hab]

theorem linspaceQ_mem (a b : ℚ) (n : ℕ) (hab : b ≤ a) :
    ∀ x ∈ linspaceQ a b n, b ≤ x ∧ x ≤ a := by
  unfold linspaceQ
  split
  · simp
  · split
    · intro x hx
      simp only [List.mem_singleton] at hx
      subst hx
      exact ⟨hab, le_refl _⟩
    · rename_i h0 h1
      intro x hx
      simp only [List.mem_map, List.mem_range] at hx
      obtain ⟨i, hi, rfl⟩ := hx
      have hn : 2 ≤ n := by omega
      have hd : (0:ℚ) < (n:ℚ) - 1 := by
        have h2 : (2:ℚ) ≤ (n:ℚ) := by exact_mod_cast hn
        linarith
      have hi' : (i:ℚ) ≤ (n:ℚ) - 1 := by
        have h3 : (i:ℚ) + 1 ≤ (n:ℚ) := by exact_mod_cast hi
        linarith
      have hipos : (0:ℚ) ≤ (i:ℚ) := Nat.cast_nonneg i
      constructor
      · have key : ((n:ℚ) - 1) * (b - a) ≤ (i:ℚ) * (b - a) :=
          mul_le_mul_of_nonpos_right hi' (by linarith)
        have hq : b - a ≤ (i:ℚ) * (b - a) / ((n:ℚ) - 1) := by
          rw [le_div_iff₀ hd]
          nlinarith [key]
        linarith
      · have key2 : (i:ℚ) * (b - a) ≤ 0 :=
          mul_nonpos_of_nonneg_of_nonpos hipos (by linarith)
        have hq : (i:ℚ) * (b - a) / ((n:ℚ) - 1) ≤ 0 := by
          rw [div_le_iff₀ hd]
          nlinarith [key2]
        linarith

theorem ratTrunc_eq_floor {q : ℚ} (h : 0 ≤ q) : ratTrunc q = ⌊q⌋ := if_pos h

theorem ratTrunc_mono {x y : ℚ} (hx : 0 ≤ x) (h : x ≤ y) :
    ratTrunc x ≤ ratTrunc y := by
  rw [ratTrunc_eq_floor hx, ratTrunc_eq_floor (le_trans hx h)]
  exact Int.floor_le_floor h

theorem time_shift_mono (mu : ℝ) {s t : ℝ} (ht : 0 < t) (hts : t ≤ s)
    (hs1 : s ≤ 1) : time_shift mu t ≤ time_shift mu s := by
  unfold time_shift
  have hs : 0 < s := lt_of_lt_of_le ht hts
  have h1s : 1 ≤ 1 / s := by
    rw [le_div_iff₀ hs]
    linarith
  have hinv : 1 / s ≤ 1 / t := one_div_le_one_div_of_le ht hts
  have hden_s : 0 < Real.exp mu + (1 / s - 1) := by
    have := Real.exp_pos mu
    linarith
  have hden : Real.exp mu + (1 / s - 1) ≤ Real.exp mu + (1 / t - 1) := by linarith
  exact div_le_div_of_nonneg_left (le_of_lt (Real.exp_pos mu)) hden_s hden

theorem set_timesteps_chain (sigmas : List ℚ) (mu : ℝ) (ntt : ℕ)
    (hc : List.Chain' (fun x y => y ≤ x) sigmas)
    (hm : ∀ σ ∈ sigmas, 0 < σ ∧ σ ≤ 1) :
    List.Chain' (fun x y : ℝ => y ≤ x) (set_timesteps sigmas mu ntt) := by
  unfold set_timesteps
  refine chain_map_of_mem (P := fun σ : ℚ => 0 < σ ∧ σ ≤ 1) _ _ _
    ?_ sigmas hc hm
  intro x y hx hy hxy
  refine mul_le_mul_of_nonneg_right ?_ (Nat.cast_nonneg ntt)
  refine time_shift_mono mu ?_ ?_ ?_
  · exact_mod_cast hy.1
  · exact_mod_cast hxy
  · exact_mod_cast hx.2

theorem zipWith_cfg_one : ∀ (u c : List ℚ), u.length = c.length →
    List.zipWith (fun a b => a + 1 * (b - a)) u c = c
  | [], [], _ => rfl
  | [], _ :: _, h => by simp at h
  | _ :: _, [], h => by simp at h
  | a :: u, b :: c, h => by
    simp only [List.zipWith_cons_cons]
    rw [zipWith_cfg_one u c (by simpa using h)]
    congr 1
    ring

theorem applyCFG_one (u c : List ℚ) (h : u.length = c.length) :
    applyCFG 1 (u ++ c) = c := by
  unfold applyCFG
  have hlen : (u ++ c).length / 2 = u.length := by
    simp only [List.length_append, h]
    omega
  rw [hlen, List.take_left, List.drop_left]
  exact zipWith_cfg_one u c h

theorem denoiseLoop_snaps_map (M : ℚ → List ℚ → List ℚ)
    (ext : Option InpaintExt) (cfgs : List ℚ) (total : ℕ) :
    ∀ (pairs : List (ℕ × ℚ × ℚ)) (lat : List ℚ),
      ((denoiseLoop M ext cfgs total pairs lat).2).map (fun s => s.step) =
        pairs.map (fun p => p.1 + 1)
  | [], _ => rfl
  | p :: rest, lat => by
    simp only [denoiseLoop, List.map_cons]
    rw [denoiseLoop_snaps_map M ext cfgs total rest _]

theorem enterLoop_snaps (M : ℚ → List ℚ → List ℚ) (cfgs : List ℚ)
    (total : ℕ) (ts lat : List ℚ) (ext : Option InpaintExt) :
    ((enterLoop M cfgs total ts lat ext).2).map (fun s => s.step) =
      List.range ((ts.dropLast.zip ts.tail).length + 1) ∧
    ((enterLoop M cfgs total ts lat ext).2).head? =
      some ⟨0, 1, total, ratTrunc (ts.headD 0), lat⟩ ∧
    ((enterLoop M cfgs total ts lat ext).2).length =
      (ts.dropLast.zip ts.tail).length + 1 := by
  have hmap : ((enterLoop M cfgs total ts lat ext).2).map (fun s => s.step) =
      List.range ((ts.dropLast.zip ts.tail).length + 1) := by
    show (⟨0, 1, total, ratTrunc (ts.headD 0), lat⟩ ::
        (denoiseLoop M ext cfgs total (ts.dropLast.zip ts.tail).enum lat).2).map
        (fun s => s.step) = _
    rw [List.map_cons, denoiseLoop_snaps_map]
    have h1 : ((ts.dropLast.zip ts.tail).enum).map (fun p => p.1 + 1) =
        (List.range (ts.dropLast.zip ts.tail).length).map (fun x => x + 1) := by
      rw [← List.enum_map_fst (ts.dropLast.zip ts.tail), List.map_map]
      rfl
    rw [h1, List.range_succ_eq_map]
  refine ⟨hmap, rfl, ?_⟩
  have := congrArg List.length hmap
  simpa using this

/-! Claim theorems. -/

/-- C1: the timestep schedule consumed by the denoising loop is NOT the
scheduler-resolved list produced by the Schedule Builder. At `steps = 2`
(image_seq_len 4096, i.e. a 1024x1024 run) the loop consumes the
independently recomputed linear-fraction schedule `[1, 1/2, 0]` of length 3,
while `_prepare_timesteps` resolves exactly 2 timesteps: the source overwrites
the builder's result (right after its `# Resume here...` comment), so the two
schedules cannot coincide. -/
theorem timestep_schedule_overwritten :
    consumed_timesteps 2 0 1 = [1, 1/2, 0] ∧
    (consumed_timesteps 2 0 1).length = 3 ∧
    (_prepare_timesteps 2 4096).length = 2 := by
  refine ⟨?_, ?_, ?_⟩
  · norm_num [consumed_timesteps, clip_timestep_schedule_fractional, linspaceQ,
      List.range_succ, List.filter]
  · norm_num [consumed_timesteps, clip_timestep_schedule_fractional, linspaceQ,
      List.range_succ, List.filter]
  · simp [_prepare_timesteps, set_timesteps, linspaceQ_length]

/-- C2: for every `num_steps > 0` and positive `image_seq_len`, the Schedule
Builder `_prepare_timesteps` (base linear timesteps 1000 down to 1 rounded to
integers, sigmas = timesteps / 1000, `mu = sqrt(image_seq_len / 256) * 0.75 +
0.25`) outputs exactly `num_steps` timestep values whose adjacent pairs are
strictly decreasing or equal — never increasing. -/
theorem prepare_timesteps_schedule (num_steps image_seq_len : ℕ)
    (hn : 0 < num_steps) (hs : 0 < image_seq_len) :
    (_prepare_timesteps num_steps image_seq_len).length = num_steps ∧
    List.Chain' (fun x y : ℝ => y ≤ x)
      (_prepare_timesteps num_steps image_seq_len) ∧
    _calculate_timestep_shift image_seq_len 256 (1/4) (3/4) =
      Real.sqrt ((image_seq_len : ℝ) / 256) * (3/4) + 1/4 := by
  refine ⟨?_, ?_, rfl⟩
  · simp [_prepare_timesteps, set_timesteps, linspaceQ_length]
  · have hEq : _prepare_timesteps num_steps image_seq_len =
        set_timesteps
          (((linspaceQ (1000:ℚ) 1 num_steps).map ratTrunc).map
            (fun t : ℤ => (t : ℚ) / (1000:ℚ)))
          (_calculate_timestep_shift image_seq_len 256 (1/4) (3/4)) 1000 := by
      simp only [_prepare_timesteps, _init_scheduler]
      norm_num
    rw [hEq]
    have hl0 : List.Chain' (fun x y : ℚ => y ≤ x)
        (linspaceQ (1000:ℚ) 1 num_steps) :=
      linspaceQ_chain _ _ _ (by norm_num)
    have hm0 : ∀ x ∈ linspaceQ (1000:ℚ) 1 num_steps, 1 ≤ x ∧ x ≤ 1000 :=
      linspaceQ_mem (1000:ℚ) 1 num_steps (by norm_num)
    have hl1 : List.Chain' (fun x y : ℤ => y ≤ x)
        ((linspaceQ (1000:ℚ) 1 num_steps).map ratTrunc) := by
      refine chain_map_of_mem (P := fun x : ℚ => 1 ≤ x ∧ x ≤ 1000) _ _ _
        ?_ _ hl0 hm0
      intro x y hx hy hxy
      exact ratTrunc_mono (by linarith [hy.1]) hxy
    have hm1 : ∀ k ∈ (linspaceQ (1000:ℚ) 1 num_steps).map ratTrunc,
        (1:ℤ) ≤ k ∧ k ≤ 1000 := by
      intro k hk
      obtain ⟨x, hx, rfl⟩ := List.mem_map.1 hk
      have h := hm0 x hx
      rw [ratTrunc_eq_floor (by linarith [h.1])]
      constructor
      · exact Int.le_floor.2 (by exact_mod_cast h.1)
      · have hfl : (⌊x⌋ : ℚ) ≤ 1000 := le_trans (Int.floor_le x) h.2
        exact_mod_cast hfl
    have hl2 : List.Chain' (fun x y : ℚ => y ≤ x)
        (((linspaceQ (1000:ℚ) 1 num_steps).map ratTrunc).map
          (fun t : ℤ => (t : ℚ) / (1000:ℚ))) := by
      refine chain_map_of_mem (P := fun k : ℤ => (1:ℤ) ≤ k ∧ k ≤ 1000) _ _ _
        ?_ _ hl1 hm1
      intro x y hx hy hxy
      have hc : ((y:ℚ)) ≤ (x:ℚ) := by exact_mod_cast hxy
      rw [div_le_div_iff_of_pos_right (by norm_num : (0:ℚ) < 1000)]
      exact hc
    have hm2 : ∀ σ ∈ ((linspaceQ (1000:ℚ) 1 num_steps).map ratTrunc).map
        (fun t : ℤ => (t : ℚ) / (1000:ℚ)), 0 < σ ∧ σ ≤ 1 := by
      intro σ hσ
      obtain ⟨k, hk, rfl⟩ := List.mem_map.1 hσ
      have h := hm1 k hk
      have h1 : (1:ℚ) ≤ (k:ℚ) := by exact_mod_cast h.1
      have h2 : (k:ℚ) ≤ 1000 := by exact_mod_cast h.2
      constructor
      · positivity
      · rw [div_le_one (by norm_num : (0:ℚ) < 1000)]
        exact h2
    exact set_timesteps_chain _ _ _ hl2 hm2

/-- C2 witness: the schedule theorem instantiated at `num_steps = 3`,
`image_seq_len = 4096`. -/
theorem prepare_timesteps_schedule_witness :
    ((0 < 3 ∧ 0 < 4096) : Prop) ∧
    ((_prepare_timesteps 3 4096).length = 3 ∧
    List.Chain' (fun x y : ℝ => y ≤ x) (_prepare_timesteps 3 4096) ∧
    _calculate_timestep_shift 4096 256 (1/4) (3/4) =
      Real.sqrt (((4096 : ℕ) : ℝ) / 256) * (3/4) + 1/4) :=
  ⟨⟨by decide, by decide⟩,
    prepare_timesteps_schedule 3 4096 (by decide) (by decide)⟩

/-- C3: at a denoising step with guidance enabled, the prediction for the
doubled batch is split into unconditional/conditional halves and combined as
`pred_uncond + scale * (pred_cond - pred_uncond)`; at `scale = 1` the
combination equals the conditional half exactly. -/
theorem cfg_combination (M : ℚ → List ℚ → List ℚ)
    (scale t_curr t_prev : ℚ) (latents u c : List ℚ)
    (h : u.length = c.length) :
    denoiseStep M scale t_curr t_prev none latents =
      List.zipWith (fun l p => l + (t_prev - t_curr) * p) latents
        (applyCFG scale (M (t_curr * 1000) (latents ++ latents))) ∧
    applyCFG 1 (u ++ c) = c := by
  constructor
  · simp [denoiseStep, latent_model_input, do_classifier_free_guidance]
  · exact applyCFG_one u c h

/-- C3 witness: the guidance-combination theorem instantiated at concrete
halves `u = [1, 2]`, `c = [3, 4]`. -/
theorem cfg_combination_witness :
    (([1, 2] : List ℚ).length = ([3, 4] : List ℚ).length) ∧
    (denoiseStep stubModel 2 1 0 none [5] =
      List.zipWith (fun l p => l + ((0:ℚ) - 1) * p) [5]
        (applyCFG 2 (stubModel ((1:ℚ) * 1000) ([5] ++ [5]))) ∧
    applyCFG 1 ([1, 2] ++ [3, 4]) = [3, 4]) :=
  ⟨rfl, cfg_combination stubModel 2 1 0 [5] [1, 2] [3, 4] rfl⟩

/-- C4: with `steps = 1` (consumed schedule `[1, 0]`), no inpaint mask and no
initial latents, the loop returns `noise + (0 - t_0) * pred` exactly, where
`t_0 = 1` and `pred` is the guidance-combined model prediction at the first
timestep — a single Euler integration step applied to the seeded noise. -/
theorem single_step_euler (M : ℚ → List ℚ → List ℚ) (s : ℚ) (noise : List ℚ) :
    (_run_diffusion M 1 0 1 (Sum.inl s) none none noise).map Prod.fst =
      Except.ok (List.zipWith (fun l p => l + ((0:ℚ) - 1) * p) noise
        (applyCFG s (M 1000 (noise ++ noise)))) := by
  have hts : consumed_timesteps 1 0 1 = [1, 0] := by
    norm_num [consumed_timesteps, clip_timestep_schedule_fractional, linspaceQ,
      List.range_succ, List.filter]
  simp [_run_diffusion, hts, _prepare_cfg_scale, initial_latents, enterLoop,
    denoiseLoop, denoiseStep, latent_model_input, do_classifier_free_guidance,
    Except.map]
  norm_num

/-- C5: when initial latents are provided the loop's initial state is
`t_0 * noise + (1 - t_0) * init` (and the seeded noise when they are not), and
when the clipped schedule holds a single timestep the run returns those
initially-blended latents unchanged, with zero denoising steps and zero
snapshots. -/
theorem initial_blend_short_circuit (M : ℚ → List ℚ → List ℚ)
    (s t_0 : ℚ) (steps : ℕ) (ds de : ℚ) (init mask : Option (List ℚ))
    (noise il : List ℚ)
    (hinit : init = none → ds ≤ 1/100000)
    (hlen : (consumed_timesteps steps ds de).length = 1) :
    initial_latents t_0 noise (some il) =
      List.zipWith (fun n i => t_0 * n + (1 - t_0) * i) noise il ∧
    initial_latents t_0 noise none = noise ∧
    _run_diffusion M steps ds de (Sum.inl s) init mask noise =
      Except.ok (initial_latents
        ((consumed_timesteps steps ds de).headD 0) noise init, []) := by
  refine ⟨rfl, rfl, ?_⟩
  have hcond : ¬(init = none ∧ 1/100000 < ds) := by
    rintro ⟨h1, h2⟩
    exact absurd h2 (not_lt.2 (hinit h1))
  unfold _run_diffusion
  simp only [_prepare_cfg_scale]
  rw [if_neg hcond, if_pos (by rw [hlen])]

/-- C5 witness: the short-circuit theorem instantiated at `steps = 1`,
`denoising_end = 1/2` (clipped schedule `[1]`, length 1), no init latents. -/
theorem initial_blend_short_circuit_witness :
    (((none : Option (List ℚ)) = none → (0:ℚ) ≤ 1/100000) ∧
      (consumed_timesteps 1 0 (1/2)).length = 1) ∧
    (initial_latents (1/3 : ℚ) [2, 3] (some [4]) =
        List.zipWith (fun n i => (1/3 : ℚ) * n + (1 - 1/3) * i) [2, 3] [4] ∧
      initial_latents (1/3 : ℚ) [2, 3] none = [2, 3] ∧
      _run_diffusion stubModel 1 0 (1/2) (Sum.inl 5) none none [2, 3] =
        Except.ok (initial_latents ((consumed_timesteps 1 0 (1/2)).headD 0)
          [2, 3] none, [])) :=
  ⟨⟨fun _ => by norm_num,
    by norm_num [consumed_timesteps, clip_timestep_schedule_fractional,
      linspaceQ, List.range_succ, List.filter]⟩,
    initial_blend_short_circuit stubModel 5 (1/3) 1 0 (1/2) none none [2, 3] [4]
      (fun _ => by norm_num)
      (by norm_num [consumed_timesteps, clip_timestep_schedule_fractional,
        linspaceQ, List.range_succ, List.filter])⟩

/-- C6: the Guidance Scale Resolver broadcasts a scalar to a list of length `n`
all equal to it, returns a list of exactly length `n` unchanged, and fails
fatally (no partial output) on a list whose length differs from `n`. -/
theorem prepare_cfg_scale_resolver (n : ℕ) (s : ℚ) (l l' : List ℚ)
    (h : l.length = n) (h' : l'.length ≠ n) :
    _prepare_cfg_scale (Sum.inl s) n = some (List.replicate n s) ∧
    (List.replicate n s).length = n ∧
    (∀ x ∈ List.replicate n s, x = s) ∧
    _prepare_cfg_scale (Sum.inr l) n = some l ∧
    _prepare_cfg_scale (Sum.inr l') n = none := by
  refine ⟨rfl, List.length_replicate n s,
    fun x hx => List.eq_of_mem_replicate hx, ?_, ?_⟩
  · simp [_prepare_cfg_scale, h]
  · simp [_prepare_cfg_scale, h']

/-- C6 witness: the resolver theorem instantiated at `n = 2`, scalar 5,
matching list `[3, 7]` and mismatched list `[4]`. -/
theorem prepare_cfg_scale_resolver_witness :
    (([3, 7] : List ℚ).length = 2 ∧ ([4] : List ℚ).length ≠ 2) ∧
    (_prepare_cfg_scale (Sum.inl (5:ℚ)) 2 = some (List.replicate 2 5) ∧
    (List.replicate 2 (5:ℚ)).length = 2 ∧
    (∀ x ∈ List.replicate 2 (5:ℚ), x = 5) ∧
    _prepare_cfg_scale (Sum.inr [3, 7]) 2 = some [3, 7] ∧
    _prepare_cfg_scale (Sum.inr [4]) 2 = none) :=
  ⟨⟨rfl, by decide⟩, prepare_cfg_scale_resolver 2 5 [3, 7] [4] rfl (by decide)⟩

/-- C7: the Noise Initializer always draws its noise on the fixed reference
device/dtype pair (cpu, float16) with the seeded generator, and only then casts
to the requested target: the pre-cast noise tensor is one and the same for all
target devices and dtypes, so repeated calls with equal (shape, seed) produce
identical noise regardless of accelerator. -/
theorem get_noise_reference_config
    (randn : RDevice → RDtype → ℕ × ℕ × ℕ × ℕ → ℤ → List ℚ)
    (cast : RDevice → RDtype → List ℚ → List ℚ)
    (batch_size num_channels h w : ℕ) (seed : ℤ) :
    (rand_device = RDevice.cpu ∧ rand_dtype = RDtype.float16) ∧
    ∀ (dtype : RDtype) (device : RDevice),
      _get_noise randn cast batch_size num_channels h w dtype device seed =
        cast device dtype (randn RDevice.cpu RDtype.float16
          (batch_size, num_channels, h / LATENT_SCALE_FACTOR,
            w / LATENT_SCALE_FACTOR) seed) :=
  ⟨⟨rfl, rfl⟩, fun _ _ => rfl⟩

/-- C8 counterexample: a denoising-start fraction of `1e-6 > 0` with no initial
latents is NOT reported as an error — the run returns normally (the source only
raises for `denoising_start > 1e-5`), refuting the claim as stated. -/
theorem denoising_start_tolerance_counterexample :
    (0 : ℚ) < 1/1000000 ∧
    _run_diffusion stubModel 1 (1/1000000) 1 (Sum.inl 1) none none [0] =
      Except.ok ([0], []) := by
  constructor
  · norm_num
  · norm_num [_run_diffusion, consumed_timesteps,
      clip_timestep_schedule_fractional, linspaceQ, List.range_succ,
      List.filter, _prepare_cfg_scale, initial_latents]

/-- C8 (amended): a denoising-start fraction greater than the tolerance `1e-5`
without provided initial latents is reported as a `ValueError` before the
denoising loop is entered — the run produces no snapshot and no latents. -/
theorem denoising_start_error_before_loop (M : ℚ → List ℚ → List ℚ)
    (steps : ℕ) (ds de s : ℚ) (mask : Option (List ℚ)) (noise : List ℚ)
    (h : 1/100000 < ds) :
    _run_diffusion M steps ds de (Sum.inl s) none mask noise =
      Except.error
        "denoising_start should be 0 when initial latents are not provided." := by
  simp [_run_diffusion, _prepare_cfg_scale, h]
  intro hds
  exact absurd h (by simpa [one_div] using not_lt.2 hds)

/-- C8 witness: the amended error theorem instantiated at `denoising_start = 1`. -/
theorem denoising_start_error_before_loop_witness :
    (1:ℚ)/100000 < 1 ∧
    _run_diffusion stubModel 1 1 1 (Sum.inl 1) none none [0] =
      Except.error
        "denoising_start should be 0 when initial latents are not provided." :=
  ⟨by norm_num,
    denoising_start_error_before_loop stubModel 1 1 1 1 none [0] (by norm_num)⟩

/-- C9: classifier-free guidance is unconditionally enabled:
`do_classifier_free_guidance` is hardcoded `true`, the latent batch is doubled
(`latents ++ latents`, length `2 * n`) for every transformer invocation, the
negative and positive conditionings are concatenated, and the step body always
reduces to the guidance-combined form (the pass-through branch is never
taken). -/
theorem cfg_always_enabled :
    do_classifier_free_guidance = true ∧
    (∀ latents : List ℚ, latent_model_input latents = latents ++ latents) ∧
    (∀ latents : List ℚ,
      (latent_model_input latents).length = 2 * latents.length) ∧
    (∀ neg pos : List ℚ, prompt_embeds neg pos = neg ++ pos) ∧
    (∀ (M : ℚ → List ℚ → List ℚ) (scale t_curr t_prev : ℚ)
        (latents : List ℚ),
      denoiseStep M scale t_curr t_prev none latents =
        List.zipWith (fun l p => l + (t_prev - t_curr) * p) latents
          (applyCFG scale (M (t_curr * 1000) (latents ++ latents)))) := by
  refine ⟨rfl, fun _ => rfl, fun l => ?_, fun _ _ => rfl,
    fun M scale tc tp lat => ?_⟩
  · simp [latent_model_input, do_classifier_free_guidance, two_mul]
  · simp [denoiseStep, latent_model_input, do_classifier_free_guidance]

/-- C10: when at least one denoising step runs, a step-0 snapshot with timestep
`int(timesteps[0])` and the initial latents is emitted before the loop, and a
run of `total_steps` steps emits exactly `total_steps + 1` snapshots whose step
indices are `0, 1, ..., total_steps` in strictly increasing order. -/
theorem progress_snapshots (M : ℚ → List ℚ → List ℚ) (s : ℚ)
    (steps : ℕ) (ds de : ℚ) (init mask : Option (List ℚ)) (noise : List ℚ)
    (hinit : init = none → ds ≤ 1/100000)
    (hmask : mask ≠ none → init ≠ none)
    (hlen : 2 ≤ (consumed_timesteps steps ds de).length) :
    (_run_diffusion M steps ds de (Sum.inl s) init mask noise).map
        (fun r => ((r.2).length, (r.2).map (fun snap => snap.step),
          (r.2).head?)) =
      Except.ok ((consumed_timesteps steps ds de).length - 1 + 1,
        List.range ((consumed_timesteps steps ds de).length - 1 + 1),
        some ⟨0, 1, (consumed_timesteps steps ds de).length - 1,
          ratTrunc ((consumed_timesteps steps ds de).headD 0),
          initial_latents ((consumed_timesteps steps ds de).headD 0)
            noise init⟩) := by
  have hcond : ¬(init = none ∧ 1/100000 < ds) := by
    rintro ⟨h1, h2⟩
    exact absurd h2 (not_lt.2 (hinit h1))
  have hnot : ¬((consumed_timesteps steps ds de).length ≤ 1) := by omega
  have hzip : ((consumed_timesteps steps ds de).dropLast.zip
      (consumed_timesteps steps ds de).tail).length =
      (consumed_timesteps steps ds de).length - 1 := by
    rw [List.length_zip, List.length_dropLast, List.length_tail, min_self]
  unfold _run_diffusion
  simp only [_prepare_cfg_scale]
  rw [if_neg hcond, if_neg hnot]
  rcases hmm : mask with _ | m
  · obtain ⟨e1, e2, e3⟩ := enterLoop_snaps M
      (List.replicate ((consumed_timesteps steps ds de).length - 1) s)
      ((consumed_timesteps steps ds de).length - 1)
      (consumed_timesteps steps ds de)
      (initial_latents ((consumed_timesteps steps ds de).headD 0) noise init)
      none
    cases init with
    | none =>
        simp only [Except.map, e1, e2, e3, hzip]
    | some il =>
        simp only [Except.map, e1, e2, e3, hzip]
  · have hne : init ≠ none := hmask (by simp [hmm])
    obtain ⟨il, hil⟩ := Option.ne_none_iff_exists'.1 hne
    subst hil
    obtain ⟨e1, e2, e3⟩ := enterLoop_snaps M
      (List.replicate ((consumed_timesteps steps ds de).length - 1) s)
      ((consumed_timesteps steps ds de).length - 1)
      (consumed_timesteps steps ds de)
      (initial_latents ((consumed_timesteps steps ds de).headD 0) noise
        (some il))
      (some ⟨il, m, noise⟩)
    simp only [Except.map, e1, e2, e3, hzip]

/-- C10 witness: the snapshot theorem instantiated at `steps = 2` (schedule
`[1, 1/2, 0]`, two denoising steps, three snapshots). -/
theorem progress_snapshots_witness :
    (((none : Option (List ℚ)) = none → (0:ℚ) ≤ 1/100000) ∧
      ((none : Option (List ℚ)) ≠ none → (none : Option (List ℚ)) ≠ none) ∧
      2 ≤ (consumed_timesteps 2 0 1).length) ∧
    (_run_diffusion stubModel 2 0 1 (Sum.inl 7) none none [1]).map
        (fun r => ((r.2).length, (r.2).map (fun snap => snap.step),
          (r.2).head?)) =
      Except.ok ((consumed_timesteps 2 0 1).length - 1 + 1,
        List.range ((consumed_timesteps 2 0 1).length - 1 + 1),
        some ⟨0, 1, (consumed_timesteps 2 0 1).length - 1,
          ratTrunc ((consumed_timesteps 2 0 1).headD 0),
          initial_latents ((consumed_timesteps 2 0 1).headD 0) [1] none⟩) :=
  ⟨⟨fun _ => by norm_num, fun h => h,
    by norm_num [consumed_timesteps, clip_timestep_schedule_fractional,
      linspaceQ, List.range_succ, List.filter]⟩,
    progress_snapshots stubModel 7 2 0 1 none none [1]
      (fun _ => by norm_num) (fun h => h)
      (by norm_num [consumed_timesteps, clip_timestep_schedule_fractional,
        linspaceQ, List.range_succ, List.filter])⟩

end CogView4
